import Mathlib

/-!
# Verification of the mezashi detection pipeline

A shallow embedding, over `ℚ`, of the core detection pipeline:
oriented-box corner computation (`getOBBCorners`), axis-aligned IoU
(`computeAABBIoU`), cross-tile non-maximum suppression (`nmsOBB`),
pixel-to-geographic conversion (`pixelToGeo`), the geographic merge of two
detection sets (`mergeGeoTIFFDetections`), the tile-local to image-space
coordinate remapping (`mapDetectionsToOriginal`), and the tile grid
arithmetic of `runInference`.

JavaScript numbers are modelled by exact rationals; the host math library
trigonometric functions, which have no rational counterpart, are passed in
as an explicit `Trig` record of cosine and sine functions.
-/

namespace Mezashi

/-- A single oriented bounding box detection (`src/mefront/src/lib/types.ts`). -/
structure Detection where
  classId : ℤ
  className : String
  confidence : ℚ
  cx : ℚ
  cy : ℚ
  width : ℚ
  height : ℚ
  angle : ℚ
deriving DecidableEq

/-- The host math library trigonometric functions, abstracted: the source
calls `Math.cos` and `Math.sin`, which have no exact rational counterpart,
so the embedding passes them in as a record of two functions. -/
structure Trig where
  cos : ℚ → ℚ
  sin : ℚ → ℚ

/-- Calculate the 4 corner points of an oriented bounding box
(`getOBBCorners` in the source: corners relative to the center, rotated by
the box angle, then translated by the center). -/
def getOBBCorners (T : Trig) (d : Detection) : List (ℚ × ℚ) :=
  let c := T.cos d.angle
  let s := T.sin d.angle
  let hw := d.width / 2
  let hh := d.height / 2
  let corners : List (ℚ × ℚ) := [(-hw, -hh), (hw, -hh), (hw, hh), (-hw, hh)]
  corners.map (fun p => (d.cx + p.1 * c - p.2 * s, d.cy + p.1 * s + p.2 * c))

/-- A geographic point. -/
structure GeoPoint where
  x : ℚ
  y : ℚ
deriving DecidableEq

/-- GeoTIFF metadata for coordinate transformation
(`src/mefront/src/lib/types.ts`). -/
structure GeoTIFFMeta where
  tiePoint : GeoPoint
  pixelScale : GeoPoint
  epsg : Option ℤ
deriving DecidableEq

/-- Convert pixel coordinates to geo coordinates using GeoTIFF metadata
(`pixelToGeo` in `src/mefront/src/lib/geotiff.ts`). -/
def pixelToGeo (px py : ℚ) (meta : GeoTIFFMeta) : GeoPoint :=
  { x := meta.tiePoint.x + px * meta.pixelScale.x
    y := meta.tiePoint.y - py * meta.pixelScale.y }

/-- Axis-aligned IoU approximation used by the suppressor
(`computeAABBIoU` in the source): both boxes are replaced by squares whose
side is the larger of width and height, centered at the box center. -/
def computeAABBIoU (a b : Detection) : ℚ :=
  let aHalfW := max a.width a.height / 2
  let aHalfH := aHalfW
  let bHalfW := max b.width b.height / 2
  let bHalfH := bHalfW
  let ax1 := a.cx - aHalfW
  let ay1 := a.cy - aHalfH
  let ax2 := a.cx + aHalfW
  let ay2 := a.cy + aHalfH
  let bx1 := b.cx - bHalfW
  let by1 := b.cy - bHalfH
  let bx2 := b.cx + bHalfW
  let by2 := b.cy + bHalfH
  let ix1 := max ax1 bx1
  let iy1 := max ay1 by1
  let ix2 := min ax2 bx2
  let iy2 := min ay2 by2
  let iw := max 0 (ix2 - ix1)
  let ih := max 0 (iy2 - iy1)
  let intersection := iw * ih
  let aArea := (ax2 - ax1) * (ay2 - ay1)
  let bArea := (bx2 - bx1) * (by2 - by1)
  let union := aArea + bArea - intersection
  if 0 < union then intersection / union else 0

/-- The suppression loop of `nmsOBB`: the head of the confidence-sorted
list is always kept, and every later same-class detection whose IoU with it
exceeds the threshold is marked suppressed (here: filtered out) before the
loop continues.  The `suppressed.has(j)` check of the source only skips
re-marking an already marked index, which is a no-op, so filtering is an
exact model of the index set. -/
def nmsLoop (iouThreshold : ℚ) : List Detection → List Detection
  | [] => []
  | d :: rest =>
    d :: nmsLoop iouThreshold
      (rest.filter (fun e => !(e.classId = d.classId ∧ iouThreshold < computeAABBIoU d e : Bool)))
termination_by l => l.length
decreasing_by
  simp only [List.length_cons]
  exact Nat.lt_succ_of_le (List.length_filter_le _ _)

/-- NMS for oriented bounding boxes (`nmsOBB` in the source): sort by
confidence descending with a stable sort (the comparator
`(a, b) => b.confidence - a.confidence` of a stable `Array.sort`), then run
the suppression loop. -/
def nmsOBB (detections : List Detection) (iouThreshold : ℚ) : List Detection :=
  if detections = [] then []
  else nmsLoop iouThreshold
    (detections.mergeSort (fun a b => decide (b.confidence ≤ a.confidence)))

/-- Map detections from tile-local model coordinates back to original image
coordinates (`mapDetectionsToOriginal` in the source). -/
def mapDetectionsToOriginal (detections : List Detection) (scale padX padY tileOffsetX tileOffsetY : ℚ) :
    List Detection :=
  detections.map (fun d =>
    { d with
      cx := (d.cx - padX) / scale + tileOffsetX
      cy := (d.cy - padY) / scale + tileOffsetY
      width := d.width / scale
      height := d.height / scale })

/-- An axis-aligned bounding box in geographic coordinates. -/
structure AABB where
  minX : ℚ
  minY : ℚ
  maxX : ℚ
  maxY : ℚ
deriving DecidableEq

/-- Axis-aligned bounding box of a polygon's corners (`getAABB` in the
source).  The source seeds the min/max folds with positive and negative
infinity; over `ℚ` the fold is seeded with the first corner instead, which
is identical for every nonempty input, and every call site passes the 4
corners of a box.  The empty-list value is junk and never reached. -/
def getAABB : List GeoPoint → AABB
  | [] => ⟨0, 0, 0, 0⟩
  | c :: rest =>
    rest.foldl (fun b p => ⟨min b.minX p.x, min b.minY p.y, max b.maxX p.x, max b.maxY p.y⟩)
      ⟨c.x, c.y, c.x, c.y⟩

/-- IoU of two polygons approximated by their axis-aligned bounding boxes
in geo coordinates (`computePolygonIoU` in the source). -/
def computePolygonIoU (corners1 corners2 : List GeoPoint) : ℚ :=
  let box1 := getAABB corners1
  let box2 := getAABB corners2
  let ix1 := max box1.minX box2.minX
  let iy1 := max box1.minY box2.minY
  let ix2 := min box1.maxX box2.maxX
  let iy2 := min box1.maxY box2.maxY
  let iw := max 0 (ix2 - ix1)
  let ih := max 0 (iy2 - iy1)
  let intersection := iw * ih
  let area1 := (box1.maxX - box1.minX) * (box1.maxY - box1.minY)
  let area2 := (box2.maxX - box2.minX) * (box2.maxY - box2.minY)
  let union := area1 + area2 - intersection
  if 0 < union then intersection / union else 0

/-- A detection paired with its geographic corner polygon (the
`{ detection, geoCorners }` records built by `mergeGeoTIFFDetections`). -/
structure GeoDet where
  detection : Detection
  geoCorners : List GeoPoint
deriving DecidableEq

/-- The geo-corner annotation of a detection set
(the `detections.map((d) => ({detection: d, geoCorners: ...}))` step of
`mergeGeoTIFFDetections`). -/
def toGeoDetections (T : Trig) (meta : GeoTIFFMeta) (detections : List Detection) : List GeoDet :=
  detections.map (fun d =>
    { detection := d
      geoCorners := (getOBBCorners T d).map (fun p => pixelToGeo p.1 p.2 meta) })

/-- The inner scan of `mergeGeoTIFFDetections`: the first index `j` of the
first-set list whose detection has the same class and whose geographic IoU
with the given second-set entry exceeds the threshold (the loop body
breaks at the first such `j`), returned together with the entry found. -/
def findDup (iouThreshold : ℚ) (e : GeoDet) : List GeoDet → Option (ℕ × GeoDet)
  | [] => none
  | g :: rest =>
    if e.detection.classId = g.detection.classId ∧
        iouThreshold < computePolygonIoU e.geoCorners g.geoCorners then
      some (0, g)
    else (findDup iouThreshold e rest).map (fun p => (p.1 + 1, p.2))

/-- One iteration of the outer loop of `mergeGeoTIFFDetections`: a
second-set entry either replaces the first matched first-set entry in place
(when its confidence is strictly higher than that of the original first-set
detection), is dropped, or is appended as new. -/
def mergeStep (iouThreshold : ℚ) (geoDetections1 : List GeoDet) (merged : List Detection)
    (e : GeoDet) : List Detection :=
  match findDup iouThreshold e geoDetections1 with
  | some p =>
    if p.2.detection.confidence < e.detection.confidence then merged.set p.1 e.detection
    else merged
  | none => merged ++ [e.detection]

/-- Merge detections from two GeoTIFF images and remove duplicates
(`mergeGeoTIFFDetections` in the source): start from a copy of the first
set and fold the annotated second set through `mergeStep`. -/
def mergeGeoTIFFDetections (T : Trig) (detections1 : List Detection) (meta1 : GeoTIFFMeta)
    (detections2 : List Detection) (meta2 : GeoTIFFMeta) (iouThreshold : ℚ) : List Detection :=
  let geoDetections1 := toGeoDetections T meta1 detections1
  let geoDetections2 := toGeoDetections T meta2 detections2
  geoDetections2.foldl (mergeStep iouThreshold geoDetections1) detections1

/-- Threshold for when to use slice inference, in pixels (`SLICE_THRESHOLD`). -/
def SLICE_THRESHOLD : ℤ := 1280

/-- Overlap between adjacent tiles, as a fraction (`TILE_OVERLAP`). -/
def TILE_OVERLAP : ℚ := 1 / 4

/-- Tile stride: `Math.round(tileSize * (1 - TILE_OVERLAP))` in
`runInference`. -/
def strideOf (tileSize : ℤ) : ℤ := round ((tileSize : ℚ) * (1 - TILE_OVERLAP))

/-- Number of tiles along one axis:
`Math.max(1, Math.ceil((dim - tileSize) / stride) + 1)` in `runInference`. -/
def tileCount (tileSize dim : ℤ) : ℤ :=
  max 1 (⌈((dim - tileSize : ℤ) : ℚ) / ((strideOf tileSize : ℤ) : ℚ)⌉ + 1)

/-- Tile origin along one axis: `Math.min(tx * stride, dim - tileSize)` in
`runInference`. -/
def tileOrigin (tileSize dim tx : ℤ) : ℤ := min (tx * strideOf tileSize) (dim - tileSize)

/-- Tile extent along one axis: `Math.min(tileSize, dim - origin)` in
`runInference`. -/
def tileExtent (tileSize dim tx : ℤ) : ℤ := min tileSize (dim - tileOrigin tileSize dim tx)

/-- A planned tile: crop offset and extent in source-image pixels. -/
structure TileSpec where
  sx : ℤ
  sy : ℤ
  sw : ℤ
  sh : ℤ
deriving DecidableEq

/-- The row-major tile grid computed by the slice-inference branch of
`runInference` for an oversized image. -/
def sliceTiles (tileSize imgWidth imgHeight : ℤ) : List TileSpec :=
  (List.range (tileCount tileSize imgHeight).toNat).flatMap (fun ty =>
    (List.range (tileCount tileSize imgWidth).toNat).map (fun tx =>
      { sx := tileOrigin tileSize imgWidth (tx : ℤ)
        sy := tileOrigin tileSize imgHeight (ty : ℤ)
        sw := tileExtent tileSize imgWidth (tx : ℤ)
        sh := tileExtent tileSize imgHeight (ty : ℤ) }))

/-! ## Concrete sample data, used to instantiate theorems with hypotheses -/

/-- A trigonometry record agreeing with the host cosine and sine at angle 0. -/
def exTrig : Trig := ⟨fun _ => 1, fun _ => 0⟩

/-- A sample GeoTIFF reference: tie point (0, 0), unit pixel scale. -/
def exMeta : GeoTIFFMeta := ⟨⟨0, 0⟩, ⟨1, 1⟩, none⟩

/-- Box A of the suppression example: center (100, 100), 40 by 20, confidence 0.8. -/
def boxA : Detection := ⟨1, "ship", 4/5, 100, 100, 40, 20, 0⟩

/-- Box B of the suppression example: center (105, 100), 40 by 20, confidence 0.95. -/
def boxB : Detection := ⟨1, "ship", 19/20, 105, 100, 40, 20, 0⟩

/-- A box geometrically identical to box A but of a different class. -/
def boxD : Detection := ⟨2, "plane", 3/5, 100, 100, 40, 20, 0⟩

/-! ## C5: pixelToGeo -/

/-- **C5**: `pixelToGeo` computes the affine transform
`(tiePoint.x + px * pixelScale.x, tiePoint.y - py * pixelScale.y)`; hence it
fixes `(0, 0)` to the tie point, and shifting the pixel input by `(dx, dy)`
shifts the x output by `dx * pixelScale.x` and the y output by
`-dy * pixelScale.y`. -/
theorem pixelToGeo_affine (meta : GeoTIFFMeta) (px py dx dy : ℚ) :
    pixelToGeo px py meta =
      ⟨meta.tiePoint.x + px * meta.pixelScale.x, meta.tiePoint.y - py * meta.pixelScale.y⟩ ∧
    pixelToGeo 0 0 meta = meta.tiePoint ∧
    (pixelToGeo (px + dx) (py + dy) meta).x = (pixelToGeo px py meta).x + dx * meta.pixelScale.x ∧
    (pixelToGeo (px + dx) (py + dy) meta).y = (pixelToGeo px py meta).y - dy * meta.pixelScale.y := by
  obtain ⟨⟨tx, ty⟩, ⟨sx, sy⟩, e⟩ := meta
  refine ⟨rfl, ?_, ?_, ?_⟩ <;> simp [pixelToGeo] <;> ring

/-! ## C6: mapDetectionsToOriginal -/

/-- **C6**: for every detection list and tile parameters with positive
scale, the detection at each position of the remapped list satisfies
`cx' = (cx - padX)/scale + tileOffsetX`,
`cy' = (cy - padY)/scale + tileOffsetY`, `width' = width/scale`,
`height' = height/scale`, with angle (and identity fields) unchanged. -/
theorem mapDetectionsToOriginal_spec (detections : List Detection)
    (scale padX padY tileOffsetX tileOffsetY : ℚ) (hs : 0 < scale)
    (i : ℕ) (d : Detection) (hd : detections[i]? = some d) :
    ∃ d2, (mapDetectionsToOriginal detections scale padX padY tileOffsetX tileOffsetY)[i]? = some d2 ∧
      d2.cx = (d.cx - padX) / scale + tileOffsetX ∧
      d2.cy = (d.cy - padY) / scale + tileOffsetY ∧
      d2.width = d.width / scale ∧
      d2.height = d.height / scale ∧
      d2.angle = d.angle ∧ d2.classId = d.classId ∧
      d2.className = d.className ∧ d2.confidence = d.confidence := by
  refine ⟨{ d with
      cx := (d.cx - padX) / scale + tileOffsetX
      cy := (d.cy - padY) / scale + tileOffsetY
      width := d.width / scale
      height := d.height / scale }, ?_, rfl, rfl, rfl, rfl, rfl, rfl, rfl, rfl⟩
  simp [mapDetectionsToOriginal, List.getElem?_map, hd]

/-- Witness for C6 at a concrete input. -/
theorem mapDetectionsToOriginal_spec_witness :
    ∃ d2, (mapDetectionsToOriginal [boxA] 2 10 20 5 6)[0]? = some d2 ∧
      d2.cx = (boxA.cx - 10) / 2 + 5 ∧
      d2.cy = (boxA.cy - 20) / 2 + 6 ∧
      d2.width = boxA.width / 2 ∧
      d2.height = boxA.height / 2 ∧
      d2.angle = boxA.angle ∧ d2.classId = boxA.classId ∧
      d2.className = boxA.className ∧ d2.confidence = boxA.confidence :=
  mapDetectionsToOriginal_spec [boxA] 2 10 20 5 6 (by norm_num) 0 boxA rfl

/-! ## C7: getOBBCorners at angle zero -/

/-- **C7**: for a detection with angle 0 (given that the trigonometry
record agrees with cosine and sine at 0), the corner computation returns
exactly the four axis-aligned rectangle corners
`(cx-w/2, cy-h/2), (cx+w/2, cy-h/2), (cx+w/2, cy+h/2), (cx-w/2, cy+h/2)`
in that order. -/
theorem getOBBCorners_angle_zero (T : Trig) (d : Detection) (h0 : d.angle = 0)
    (hcos : T.cos 0 = 1) (hsin : T.sin 0 = 0) :
    getOBBCorners T d =
      [(d.cx - d.width / 2, d.cy - d.height / 2), (d.cx + d.width / 2, d.cy - d.height / 2),
        (d.cx + d.width / 2, d.cy + d.height / 2), (d.cx - d.width / 2, d.cy + d.height / 2)] := by
  simp only [getOBBCorners, h0, hcos, hsin, List.map_cons, List.map_nil]
  norm_num [Prod.ext_iff]
  and_intros <;> ring

/-- Witness for C7 at a concrete input. -/
theorem getOBBCorners_angle_zero_witness :
    getOBBCorners exTrig boxA = [(80, 90), (120, 90), (120, 110), (80, 110)] := by
  have h := getOBBCorners_angle_zero exTrig boxA rfl rfl rfl
  rw [h]
  norm_num [boxA]

/-! ## Suppression lemmas -/

/-- A two-element list is sorted into `[a, b]` or `[b, a]` according to the
comparator. -/
theorem mergeSort_pair {α : Type} (le : α → α → Bool) (a b : α) :
    [a, b].mergeSort le = if le a b then [a, b] else [b, a] := by
  simp [List.mergeSort, List.splitInTwo, List.splitAt, List.splitAt.go, List.merge]

/-- Every detection kept by the suppression loop comes from its input. -/
theorem nmsLoop_subset (τ : ℚ) (l : List Detection) : ∀ x ∈ nmsLoop τ l, x ∈ l := by
  induction l using nmsLoop.induct τ with
  | case1 => simp [nmsLoop]
  | case2 d rest ih =>
    intro x hx
    rw [nmsLoop] at hx
    rcases List.mem_cons.mp hx with rfl | hx
    · exact List.mem_cons_self _ _
    · exact List.mem_cons_of_mem _ (List.mem_of_mem_filter (ih x hx))

/-- Any two detections kept by the suppression loop, in kept order, either
differ in class or have IoU at most the threshold. -/
theorem nmsLoop_pairwise (τ : ℚ) (l : List Detection) :
    (nmsLoop τ l).Pairwise (fun x y => x.classId = y.classId → computeAABBIoU x y ≤ τ) := by
  induction l using nmsLoop.induct τ with
  | case1 => simp [nmsLoop]
  | case2 d rest ih =>
    rw [nmsLoop]
    refine List.Pairwise.cons ?_ ih
    intro y hy hcl
    have hyf := nmsLoop_subset τ _ y hy
    have := List.of_mem_filter hyf
    simp only [Bool.not_eq_true', decide_eq_false_iff_not] at this
    by_contra hgt
    exact this ⟨hcl.symm ▸ rfl, lt_of_not_ge hgt⟩

/-- The axis-aligned IoU approximation is symmetric in its two boxes. -/
theorem computeAABBIoU_comm (a b : Detection) : computeAABBIoU a b = computeAABBIoU b a := by
  simp only [computeAABBIoU]
  rw [max_comm (a.cx - max a.width a.height / 2) (b.cx - max b.width b.height / 2),
      max_comm (a.cy - max a.width a.height / 2) (b.cy - max b.width b.height / 2),
      min_comm (a.cx + max a.width a.height / 2) (b.cx + max b.width b.height / 2),
      min_comm (a.cy + max a.width a.height / 2) (b.cy + max b.width b.height / 2)]
  ring_nf

/-- A detection with no same-class companion in the input survives the
suppression loop. -/
theorem nmsLoop_mem_of_unique_class (τ : ℚ) (l : List Detection) (d : Detection)
    (hd : d ∈ l) (hu : ∀ e ∈ l, e ≠ d → e.classId ≠ d.classId) : d ∈ nmsLoop τ l := by
  induction l using nmsLoop.induct τ with
  | case1 => simp at hd
  | case2 h rest ih =>
    rw [nmsLoop]
    rcases List.mem_cons.mp hd with rfl | hd2
    · exact List.mem_cons_self _ _
    · by_cases hdh : h = d
      · exact hdh ▸ List.mem_cons_self _ _
      · refine List.mem_cons_of_mem _ (ih ?_ ?_)
        · refine List.mem_filter.mpr ⟨hd2, ?_⟩
          have : d.classId ≠ h.classId := by
            intro he
            exact hu h (List.mem_cons_self _ _) hdh he.symm
          simp [this]
        · intro e he hne
          exact hu e (List.mem_cons_of_mem _ (List.mem_of_mem_filter he)) hne

/-! ## C3: two overlapping same-class detections -/

/-- **C3**: on an input of exactly two same-class detections whose
approximate axis-aligned IoU exceeds the threshold, the suppressor returns
exactly one detection: the higher-confidence one (the first on ties). -/
theorem nmsOBB_pair_collapse (a b : Detection) (τ : ℚ) (hc : a.classId = b.classId)
    (hiou : τ < computeAABBIoU a b) :
    nmsOBB [a, b] τ = [if a.confidence < b.confidence then b else a] := by
  unfold nmsOBB
  rw [if_neg (by simp : ¬([a, b] : List Detection) = [])]
  rw [mergeSort_pair]
  by_cases hle : b.confidence ≤ a.confidence
  · rw [if_pos (by simpa using hle)]
    rw [nmsLoop]
    have hfilter : List.filter
        (fun e => !decide (e.classId = a.classId ∧ τ < computeAABBIoU a e)) [b] = [] := by
      simp [hc.symm, hiou]
    rw [hfilter, nmsLoop, if_neg (not_lt.mpr hle)]
  · rw [if_neg (by simpa using hle)]
    rw [nmsLoop]
    have hfilter : List.filter
        (fun e => !decide (e.classId = b.classId ∧ τ < computeAABBIoU b e)) [a] = [] := by
      have : τ < computeAABBIoU b a := computeAABBIoU_comm b a ▸ hiou
      simp [hc, this]
    rw [hfilter, nmsLoop, if_pos (lt_of_not_ge hle)]

/-- Witness for C3: the spec example boxes A and B at τ = 0.45 collapse to
the single kept box B with confidence 0.95. -/
theorem nmsOBB_pair_collapse_witness :
    nmsOBB [boxA, boxB] (9/20) = [boxB] ∧ boxB.confidence = 19/20 := by
  have h := nmsOBB_pair_collapse boxA boxB (9/20) rfl
    (by norm_num [computeAABBIoU, boxA, boxB])
  rw [h]
  norm_num [boxA, boxB]

/-! ## C4: no cross-class suppression -/

/-- **C4**: suppression never removes a detection because of a detection of
a different class: a detection all of whose fellow input detections have a
different class is always present in the output. -/
theorem nmsOBB_no_cross_class_suppression (dets : List Detection) (τ : ℚ) (d : Detection)
    (hd : d ∈ dets) (hu : ∀ e ∈ dets, e ≠ d → e.classId ≠ d.classId) : d ∈ nmsOBB dets τ := by
  unfold nmsOBB
  have hne : dets ≠ [] := by
    intro h
    subst h
    simp at hd
  rw [if_neg hne]
  refine nmsLoop_mem_of_unique_class τ _ d ?_ ?_
  · simpa using hd
  · intro e he hne2
    exact hu e (by simpa using he) hne2

/-- Witness for C4: two detections with different classId and identical
center, width, height and angle (IoU = 1.0) are both kept. -/
theorem nmsOBB_no_cross_class_suppression_witness :
    boxA ∈ nmsOBB [boxA, boxD] (9/20) ∧ boxD ∈ nmsOBB [boxA, boxD] (9/20) := by
  constructor
  · refine nmsOBB_no_cross_class_suppression [boxA, boxD] (9/20) boxA (by simp) ?_
    intro e he hne
    rcases List.mem_cons.mp he with rfl | he2
    · exact absurd rfl hne
    · rcases List.mem_singleton.mp he2 with rfl
      norm_num [boxA, boxD]
  · refine nmsOBB_no_cross_class_suppression [boxA, boxD] (9/20) boxD (by simp) ?_
    intro e he hne
    rcases List.mem_cons.mp he with rfl | he2
    · norm_num [boxA, boxD]
    · rcases List.mem_singleton.mp he2 with rfl
      exact absurd rfl hne

/-! ## C10: output invariant of the suppressor -/

/-- **C10**: any two distinct detections in the suppressor output that
share a class have approximate axis-aligned IoU (in either argument order)
at most the threshold. -/
theorem nmsOBB_output_pairwise_below_threshold (dets : List Detection) (τ : ℚ) :
    (nmsOBB dets τ).Pairwise (fun x y => x.classId = y.classId →
      computeAABBIoU x y ≤ τ ∧ computeAABBIoU y x ≤ τ) := by
  unfold nmsOBB
  split
  · simp
  · refine (nmsLoop_pairwise τ _).imp ?_
    intro x y h hcl
    refine ⟨h hcl, ?_⟩
    rw [computeAABBIoU_comm]
    exact h hcl

/-! ## Merge lemmas -/

/-- The index returned by the inner scan addresses the entry it returns. -/
theorem findDup_get (τ : ℚ) (e : GeoDet) :
    ∀ (g1 : List GeoDet) (j : ℕ) (g : GeoDet), findDup τ e g1 = some (j, g) → g1[j]? = some g
  | [], j, g => by simp [findDup]
  | h :: rest, j, g => by
    intro hf
    rw [findDup] at hf
    split at hf
    · simp only [Option.some.injEq, Prod.mk.injEq] at hf
      obtain ⟨rfl, rfl⟩ := hf
      simp
    · rcases Option.map_eq_some'.mp hf with ⟨⟨j0, g0⟩, hf0, heq⟩
      simp only [Prod.mk.injEq] at heq
      obtain ⟨rfl, rfl⟩ := heq
      simpa using findDup_get τ e rest j0 g0 hf0

/-- Folding second-set entries none of which matches index `j` leaves the
entry at `j` unchanged. -/
theorem mergeFold_get_of_not_matched (τ : ℚ) (g1 : List GeoDet) :
    ∀ (g2 : List GeoDet) (merged : List Detection) (j : ℕ), j < merged.length →
      (∀ e ∈ g2, ∀ p, findDup τ e g1 = some p → p.1 ≠ j) →
      (g2.foldl (mergeStep τ g1) merged)[j]? = merged[j]?
  | [], merged, j => by simp
  | e :: rest, merged, j => by
    intro hj hnm
    simp only [List.foldl_cons]
    have hstep : (mergeStep τ g1 merged e)[j]? = merged[j]? ∧
        j < (mergeStep τ g1 merged e).length := by
      rcases hfd : findDup τ e g1 with _ | ⟨j', g'⟩
      · simp only [mergeStep, hfd]
        refine ⟨List.getElem?_append_left hj, ?_⟩
        simp only [List.length_append, List.length_singleton]
        omega
      · have hne : j' ≠ j := hnm e (List.mem_cons_self _ _) (j', g') hfd
        simp only [mergeStep, hfd]
        split
        · exact ⟨List.getElem?_set_ne hne, by simpa using hj⟩
        · exact ⟨rfl, hj⟩
    rw [mergeFold_get_of_not_matched τ g1 rest (mergeStep τ g1 merged e) j hstep.2
      (fun e2 he2 => hnm e2 (List.mem_cons_of_mem _ he2))]
    exact hstep.1

/-- The merge adds exactly one entry per unmatched second-set entry. -/
theorem mergeFold_length (τ : ℚ) (g1 : List GeoDet) :
    ∀ (g2 : List GeoDet) (merged : List Detection),
      (g2.foldl (mergeStep τ g1) merged).length =
        merged.length + g2.countP (fun e => (findDup τ e g1).isNone)
  | [], merged => by simp
  | e :: rest, merged => by
    simp only [List.foldl_cons]
    rw [mergeFold_length τ g1 rest (mergeStep τ g1 merged e), List.countP_cons]
    rcases hfd : findDup τ e g1 with _ | ⟨j', g'⟩
    · simp only [mergeStep, hfd, List.length_append, List.length_singleton, Option.isNone_none]
      simp
      omega
    · simp only [mergeStep, hfd, Option.isNone_some]
      split
      · simp
      · simp

/-- Against an empty first set, the merge fold appends every second-set
detection in order. -/
theorem mergeFold_nil_g1 (τ : ℚ) :
    ∀ (g2 : List GeoDet) (merged : List Detection),
      g2.foldl (mergeStep τ []) merged = merged ++ g2.map (fun e => e.detection)
  | [], merged => by simp
  | e :: rest, merged => by
    simp only [List.foldl_cons]
    have hstep : mergeStep τ [] merged e = merged ++ [e.detection] := by
      simp only [mergeStep, findDup]
    rw [hstep, mergeFold_nil_g1 τ rest (merged ++ [e.detection])]
    simp

/-- Every detection produced by the merge fold is an accumulator entry or a
second-set detection. -/
theorem mergeFold_mem (τ : ℚ) (g1 : List GeoDet) :
    ∀ (g2 : List GeoDet) (merged : List Detection), ∀ x ∈ g2.foldl (mergeStep τ g1) merged,
      x ∈ merged ∨ ∃ e ∈ g2, x = e.detection
  | [], merged => by simp
  | e :: rest, merged => by
    intro x hx
    simp only [List.foldl_cons] at hx
    rcases mergeFold_mem τ g1 rest (mergeStep τ g1 merged e) x hx with h | ⟨e2, he2, rfl⟩
    · rcases hfd : findDup τ e g1 with _ | ⟨j', g'⟩ <;> simp only [mergeStep, hfd] at h
      · rcases List.mem_append.mp h with h2 | h2
        · exact .inl h2
        · exact .inr ⟨e, List.mem_cons_self _ _, List.mem_singleton.mp h2⟩
      · split at h
        · rcases List.mem_or_eq_of_mem_set h with h2 | h2
          · exact .inl h2
          · exact .inr ⟨e, List.mem_cons_self _ _, h2⟩
        · exact .inl h
    · exact .inr ⟨e2, List.mem_cons_of_mem _ he2, rfl⟩

/-! ## C8: merging with empty sets -/

/-- **C8**: merging two empty detection sets returns the empty set, and
merging a non-empty set with an empty one — on either side — returns that
set unchanged. -/
theorem mergeGeoTIFFDetections_empty (T : Trig) (D : List Detection) (m1 m2 : GeoTIFFMeta)
    (τ : ℚ) (hD : D ≠ []) :
    mergeGeoTIFFDetections T [] m1 [] m2 τ = [] ∧
    mergeGeoTIFFDetections T D m1 [] m2 τ = D ∧
    mergeGeoTIFFDetections T [] m1 D m2 τ = D := by
  refine ⟨rfl, rfl, ?_⟩
  simp only [mergeGeoTIFFDetections, toGeoDetections, List.map_nil]
  rw [mergeFold_nil_g1]
  rw [List.map_map]
  rw [show ((fun e : GeoDet => e.detection) ∘ fun d =>
      GeoDet.mk d ((getOBBCorners T d).map (fun p => pixelToGeo p.1 p.2 m2))) = id from rfl]
  simp

/-! ## C9: records pass through whole -/

/-- **C9**: suppression and merge never alter the fields of a detection:
every output record of `nmsOBB` is one of its input records, and every
output record of `mergeGeoTIFFDetections` is a record of one of its two
input sets.  (Input sequences are values in this embedding, so they are
unchanged by construction.) -/
theorem merge_nms_frame (dets D1 D2 : List Detection) (m1 m2 : GeoTIFFMeta) (T : Trig)
    (τ1 τ2 : ℚ) :
    (∀ d ∈ nmsOBB dets τ1, d ∈ dets) ∧
    (∀ d ∈ mergeGeoTIFFDetections T D1 m1 D2 m2 τ2, d ∈ D1 ∨ d ∈ D2) := by
  constructor
  · intro d hd
    unfold nmsOBB at hd
    split at hd
    · simp at hd
    · have := nmsLoop_subset τ1 _ d hd
      simpa using this
  · intro d hd
    unfold mergeGeoTIFFDetections at hd
    rcases mergeFold_mem τ2 _ _ _ d hd with h | ⟨e, he, rfl⟩
    · exact .inl h
    · right
      rcases List.mem_map.mp (by simpa [toGeoDetections] using he) with ⟨d0, hd0, rfl⟩
      exact hd0

/-! ## C2: geographic deduplication -/

/-- **C2** (amended): a second-set detection whose geographic IoU with a
same-class first-set detection exceeds the threshold collapses with the
first such matched entry: it is not appended (the output length counts only
unmatched second-set entries), and — provided no other second-set entry also
matches the same index `j` — the final entry at `j` is the second-set
detection when its confidence is strictly higher than that of the original
first-set detection there, and the first-set detection otherwise (ties keep
the first-set entry). -/
theorem mergeGeoTIFFDetections_dedup (T : Trig) (D1 D2 : List Detection)
    (m1 m2 : GeoTIFFMeta) (τ : ℚ) (pre post : List GeoDet) (e : GeoDet) (j : ℕ) (g : GeoDet)
    (hsplit : toGeoDetections T m2 D2 = pre ++ e :: post)
    (hfind : findDup τ e (toGeoDetections T m1 D1) = some (j, g))
    (hpre : ∀ e2 ∈ pre, ∀ p, findDup τ e2 (toGeoDetections T m1 D1) = some p → p.1 ≠ j)
    (hpost : ∀ e2 ∈ post, ∀ p, findDup τ e2 (toGeoDetections T m1 D1) = some p → p.1 ≠ j) :
    D1[j]? = some g.detection ∧
    (mergeGeoTIFFDetections T D1 m1 D2 m2 τ)[j]? =
      some (if g.detection.confidence < e.detection.confidence then e.detection
        else g.detection) ∧
    (mergeGeoTIFFDetections T D1 m1 D2 m2 τ).length =
      D1.length + (toGeoDetections T m2 D2).countP
        (fun e2 => (findDup τ e2 (toGeoDetections T m1 D1)).isNone) := by
  have hg1 : (toGeoDetections T m1 D1)[j]? = some g := findDup_get τ e _ j g hfind
  have hjlen : j < D1.length := by
    have := (List.getElem?_eq_some.mp hg1).1
    simpa [toGeoDetections] using this
  have hD1j : D1[j]? = some g.detection := by
    have hmap : (D1[j]?).map (fun d =>
        GeoDet.mk d ((getOBBCorners T d).map (fun p => pixelToGeo p.1 p.2 m1))) = some g := by
      simpa [toGeoDetections, List.getElem?_map] using hg1
    rcases Option.map_eq_some'.mp hmap with ⟨d0, hd0, hfd0⟩
    rw [hd0, ← hfd0]
  refine ⟨hD1j, ?_, ?_⟩
  · unfold mergeGeoTIFFDetections
    rw [hsplit, List.foldl_append, List.foldl_cons]
    set g1 := toGeoDetections T m1 D1 with hg1def
    set M := pre.foldl (mergeStep τ g1) D1 with hMdef
    have hM : M[j]? = D1[j]? := mergeFold_get_of_not_matched τ g1 pre D1 j hjlen hpre
    have hMlen : j < M.length := by
      rw [hMdef, mergeFold_length]
      omega
    have hstep : (mergeStep τ g1 M e)[j]? =
        some (if g.detection.confidence < e.detection.confidence then e.detection
          else g.detection) ∧ j < (mergeStep τ g1 M e).length := by
      simp only [mergeStep, hfind]
      by_cases hconf : g.detection.confidence < e.detection.confidence
      · rw [if_pos hconf, if_pos hconf]
        refine ⟨?_, by simpa using hMlen⟩
        rw [List.getElem?_set_self]
        simp [hMlen]
      · rw [if_neg hconf, if_neg hconf]
        exact ⟨hM.trans hD1j, hMlen⟩
    rw [mergeFold_get_of_not_matched τ g1 post (mergeStep τ g1 M e) j hstep.2 hpost]
    exact hstep.1
  · unfold mergeGeoTIFFDetections
    rw [mergeFold_length]

/-- First-set detection of the duplicate-chain counterexample, confidence 0.5. -/
def dupA : Detection := ⟨1, "ship", 1/2, 100, 100, 40, 20, 0⟩
/-- Second-set detection at the same place and class, confidence 0.9. -/
def dupB : Detection := ⟨1, "ship", 9/10, 100, 100, 40, 20, 0⟩
/-- Second second-set detection at the same place and class, confidence 0.6. -/
def dupC : Detection := ⟨1, "ship", 3/5, 100, 100, 40, 20, 0⟩

/-- Counterexample to C2 as stated: dupB (confidence 0.9) exceeds the IoU
threshold with the sole same-class first-set detection dupA (confidence 0.5),
yet the single merged entry ends with confidence 0.6: dupC, processed later,
is compared against the original dupA and overwrites the entry, so the
matched entry does not retain the higher confidence. -/
theorem mergeGeoTIFFDetections_dedup_cex :
    mergeGeoTIFFDetections exTrig [dupA] exMeta [dupB, dupC] exMeta (1/2) = [dupC] ∧
    dupB.classId = dupA.classId ∧
    (1/2 : ℚ) < computePolygonIoU
      ((getOBBCorners exTrig dupB).map (fun p => pixelToGeo p.1 p.2 exMeta))
      ((getOBBCorners exTrig dupA).map (fun p => pixelToGeo p.1 p.2 exMeta)) ∧
    dupC.confidence < dupB.confidence := by
  refine ⟨?_, rfl, ?_, by norm_num [dupB, dupC]⟩
  · norm_num [mergeGeoTIFFDetections, toGeoDetections, mergeStep, findDup, getOBBCorners,
      pixelToGeo, getAABB, computePolygonIoU, exTrig, exMeta, dupA, dupB, dupC]
  · norm_num [getOBBCorners, pixelToGeo, getAABB, computePolygonIoU, exTrig, exMeta, dupA, dupB]

/-- Box B annotated with its geographic corners. -/
def geoBoxB : GeoDet :=
  ⟨boxB, (getOBBCorners exTrig boxB).map (fun p => pixelToGeo p.1 p.2 exMeta)⟩

/-- Box A annotated with its geographic corners. -/
def geoBoxA : GeoDet :=
  ⟨boxA, (getOBBCorners exTrig boxA).map (fun p => pixelToGeo p.1 p.2 exMeta)⟩

/-- Witness for C2 (amended) at a concrete input. -/
theorem mergeGeoTIFFDetections_dedup_witness :
    (mergeGeoTIFFDetections exTrig [boxA] exMeta [boxB] exMeta (1/2))[0]? = some boxB ∧
    (mergeGeoTIFFDetections exTrig [boxA] exMeta [boxB] exMeta (1/2)).length = 1 := by
  have hfind : findDup (1/2) geoBoxB (toGeoDetections exTrig exMeta [boxA]) =
      some (0, geoBoxA) := by
    norm_num [findDup, toGeoDetections, geoBoxA, geoBoxB, computePolygonIoU, getAABB,
      getOBBCorners, pixelToGeo, exTrig, exMeta, boxA, boxB]
  have h := mergeGeoTIFFDetections_dedup exTrig [boxA] [boxB] exMeta exMeta (1/2)
    [] [] geoBoxB 0 geoBoxA rfl hfind (by simp) (by simp)
  constructor
  · rw [h.2.1]
    norm_num [geoBoxA, geoBoxB, boxA, boxB]
  · rw [h.2.2]
    norm_num [toGeoDetections, List.countP_cons, findDup, geoBoxA, geoBoxB, computePolygonIoU,
      getAABB, getOBBCorners, pixelToGeo, exTrig, exMeta, boxA, boxB]

/-- Witness for C8 at a concrete input. -/
theorem mergeGeoTIFFDetections_empty_witness :
    mergeGeoTIFFDetections exTrig [] exMeta [] exMeta (1/2) = [] ∧
    mergeGeoTIFFDetections exTrig [boxA] exMeta [] exMeta (1/2) = [boxA] ∧
    mergeGeoTIFFDetections exTrig [] exMeta [boxA] exMeta (1/2) = [boxA] :=
  mergeGeoTIFFDetections_empty exTrig [boxA] exMeta exMeta (1/2) (by simp)

/-- Witness for C9 at a concrete input. -/
theorem merge_nms_frame_witness :
    boxA ∈ ([boxA] : List Detection) ∧
    (boxD ∈ ([boxA] : List Detection) ∨ boxD ∈ ([boxD] : List Detection)) := by
  have h := merge_nms_frame [boxA] [boxA] [boxD] exMeta exMeta exTrig (9/20) (1/2)
  refine ⟨h.1 boxA ?_, h.2 boxD ?_⟩
  · show boxA ∈ nmsOBB [boxA] (9/20)
    simp [nmsOBB, nmsLoop]
  · show boxD ∈ mergeGeoTIFFDetections exTrig [boxA] exMeta [boxD] exMeta (1/2)
    norm_num [mergeGeoTIFFDetections, toGeoDetections, mergeStep, findDup, boxA, boxD]

/-! ## C1: the tile plan -/

/-- **C1** (amended): for a positive tile size, along each image axis the
tile plan of `runInference` satisfies: every tile ends at or before the
image edge; when the axis dimension is at least the tile size, every tile
origin is nonnegative; and on every axis the half-open tile intervals
`[origin, origin + extent)` jointly cover the whole axis with no gaps. -/
theorem tilePlan_covers (tileSize dim : ℤ) (ht : 0 < tileSize) :
    (∀ tx : ℤ, tileOrigin tileSize dim tx + tileExtent tileSize dim tx ≤ dim) ∧
    (tileSize ≤ dim → ∀ tx : ℤ, 0 ≤ tx → 0 ≤ tileOrigin tileSize dim tx) ∧
    (∀ p : ℤ, 0 ≤ p → p < dim →
      ∃ tx : ℤ, 0 ≤ tx ∧ tx < tileCount tileSize dim ∧
        tileOrigin tileSize dim tx ≤ p ∧
        p < tileOrigin tileSize dim tx + tileExtent tileSize dim tx) := by
  have hs1 : 1 ≤ strideOf tileSize := by
    rw [strideOf, TILE_OVERLAP, round_eq, Int.le_floor]
    have h1 : (1:ℚ) ≤ (tileSize:ℚ) := by exact_mod_cast ht
    push_cast
    linarith
  have hst : strideOf tileSize ≤ tileSize := by
    rw [strideOf, TILE_OVERLAP, round_eq, ← Int.lt_add_one_iff, Int.floor_lt]
    have h1 : (1:ℚ) ≤ (tileSize:ℚ) := by exact_mod_cast ht
    push_cast
    linarith
  have ho_eq : ∀ tx : ℤ,
      tileOrigin tileSize dim tx = min (tx * strideOf tileSize) (dim - tileSize) :=
    fun _ => rfl
  have horig_le : ∀ tx : ℤ, tileOrigin tileSize dim tx ≤ dim - tileSize := fun tx =>
    min_le_right _ _
  have hext : ∀ tx : ℤ, tileExtent tileSize dim tx = tileSize := by
    intro tx
    have h1 := horig_le tx
    rw [tileExtent, min_eq_left (by omega)]
  refine ⟨?_, ?_, ?_⟩
  · intro tx
    have h1 := horig_le tx
    have h2 := hext tx
    omega
  · intro hdim tx htx
    rw [ho_eq]
    exact le_min (mul_nonneg htx (by omega)) (by omega)
  · intro p hp hpd
    have hcount1 : (1:ℤ) ≤ tileCount tileSize dim := le_max_left _ _
    by_cases hc : dim ≤ tileSize
    · refine ⟨0, le_refl 0, by omega, ?_, ?_⟩
      · rw [ho_eq, zero_mul, min_eq_right (by omega)]
        omega
      · have h2 := hext 0
        have h3 : tileOrigin tileSize dim 0 = dim - tileSize := by
          rw [ho_eq, zero_mul, min_eq_right (by omega)]
        omega
    · -- tileSize < dim
      have hdt : 0 < dim - tileSize := by omega
      have hspos : (0:ℤ) < strideOf tileSize := by omega
      set q2 := ⌈((dim - tileSize : ℤ) : ℚ) / ((strideOf tileSize : ℤ) : ℚ)⌉ with hq2_def
      have hq2_nonneg : 0 ≤ q2 := by
        rw [hq2_def]
        refine Int.ceil_nonneg (div_nonneg ?_ ?_)
        · exact_mod_cast le_of_lt hdt
        · exact_mod_cast le_of_lt hspos
      have hn : tileCount tileSize dim = q2 + 1 := by
        rw [tileCount, ← hq2_def]
        exact max_eq_right (by omega)
      have hq2s : dim - tileSize ≤ strideOf tileSize * q2 := by
        have h := Int.le_ceil (((dim - tileSize : ℤ) : ℚ) / ((strideOf tileSize : ℤ) : ℚ))
        rw [← hq2_def] at h
        rw [div_le_iff₀ (by exact_mod_cast hspos)] at h
        have h2 : ((dim - tileSize : ℤ) : ℚ) ≤ ((strideOf tileSize * q2 : ℤ) : ℚ) := by
          push_cast at h ⊢
          linarith
        exact_mod_cast h2
      have hdiv : strideOf tileSize * (p / strideOf tileSize) + p % strideOf tileSize = p :=
        Int.ediv_add_emod p (strideOf tileSize)
      have hr0 : 0 ≤ p % strideOf tileSize := Int.emod_nonneg p (by omega)
      have hrs : p % strideOf tileSize < strideOf tileSize := Int.emod_lt_of_pos p hspos
      have hq0 : 0 ≤ p / strideOf tileSize := Int.ediv_nonneg hp (le_of_lt hspos)
      by_cases hqc : p / strideOf tileSize ≤ q2
      · refine ⟨p / strideOf tileSize, hq0, by omega, ?_, ?_⟩
        · have h1 : tileOrigin tileSize dim (p / strideOf tileSize) ≤
              p / strideOf tileSize * strideOf tileSize := by
            rw [ho_eq]
            exact min_le_left _ _
          have h2 : p / strideOf tileSize * strideOf tileSize =
              strideOf tileSize * (p / strideOf tileSize) := mul_comm _ _
          omega
        · have h2 := hext (p / strideOf tileSize)
          have h4 : p / strideOf tileSize * strideOf tileSize =
              strideOf tileSize * (p / strideOf tileSize) := mul_comm _ _
          rcases le_total (p / strideOf tileSize * strideOf tileSize) (dim - tileSize)
            with hmin | hmin
          · have h3 : tileOrigin tileSize dim (p / strideOf tileSize) =
                p / strideOf tileSize * strideOf tileSize := by
              rw [ho_eq, min_eq_left hmin]
            omega
          · have h3 : tileOrigin tileSize dim (p / strideOf tileSize) = dim - tileSize := by
              rw [ho_eq, min_eq_right hmin]
            omega
      · refine ⟨q2, hq2_nonneg, by omega, ?_, ?_⟩
        · have h1 : strideOf tileSize * (q2 + 1) ≤
              strideOf tileSize * (p / strideOf tileSize) :=
            mul_le_mul_of_nonneg_left (by omega) (le_of_lt hspos)
          have h2 : strideOf tileSize * (q2 + 1) = strideOf tileSize * q2 + strideOf tileSize := by
            ring
          have h3 := horig_le q2
          omega
        · have h2 := hext q2
          have hmin : dim - tileSize ≤ q2 * strideOf tileSize := by
            have h4 : q2 * strideOf tileSize = strideOf tileSize * q2 := mul_comm _ _
            omega
          have h3 : tileOrigin tileSize dim q2 = dim - tileSize := by
            rw [ho_eq, min_eq_right hmin]
          omega

/-- Counterexample to C1 as stated: the 2000 by 500 image exceeds the
slice threshold in width, so the tile plan is used, yet its very first tile
has y-origin -524 < 0 — the tile does not lie within the image on the
y-axis (whose dimension 500 is below the tile size 1024). -/
theorem tilePlan_cex :
    SLICE_THRESHOLD < 2000 ∧
    TileSpec.mk 0 (-524) 1024 1024 ∈ sliceTiles 1024 2000 500 ∧
    (-524 : ℤ) < 0 := by
  refine ⟨by norm_num [SLICE_THRESHOLD], ?_, by norm_num⟩
  have hstride : strideOf 1024 = 768 := by
    rw [strideOf, TILE_OVERLAP, round_eq,
      show (((1024:ℤ):ℚ) * (1 - 1/4) + 1/2) = 1537/2 by push_cast; norm_num, Int.floor_eq_iff]
    norm_num
  have hcH : tileCount 1024 500 = 1 := by
    rw [tileCount, hstride,
      show ⌈((500 - 1024 : ℤ) : ℚ) / ((768 : ℤ) : ℚ)⌉ = 0 by
        rw [Int.ceil_eq_iff]; norm_num]
    norm_num
  have hcW : tileCount 1024 2000 = 3 := by
    rw [tileCount, hstride,
      show ⌈((2000 - 1024 : ℤ) : ℚ) / ((768 : ℤ) : ℚ)⌉ = 2 by
        rw [Int.ceil_eq_iff]; norm_num]
    norm_num
  rw [sliceTiles, hcW, hcH]
  norm_num [List.range_succ, tileOrigin, tileExtent, hstride]
  exact ⟨0, ⟨0, by norm_num, by norm_num⟩, by norm_num, by norm_num⟩

/-- Witness for C1 (amended) at tile size 1024 and dimension 2000: tile 1
lies within the axis, and the point 1500 is covered by some tile. -/
theorem tilePlan_covers_witness :
    (0:ℤ) < 1024 ∧ (1024:ℤ) ≤ 2000 ∧ (0:ℤ) ≤ 1 ∧ ((0:ℤ) ≤ 1500 ∧ (1500:ℤ) < 2000) ∧
    tileOrigin 1024 2000 1 + tileExtent 1024 2000 1 ≤ 2000 ∧
    0 ≤ tileOrigin 1024 2000 1 ∧
    (∃ tx : ℤ, 0 ≤ tx ∧ tx < tileCount 1024 2000 ∧ tileOrigin 1024 2000 tx ≤ 1500 ∧
      1500 < tileOrigin 1024 2000 tx + tileExtent 1024 2000 tx) := by
  have h := tilePlan_covers 1024 2000 (by norm_num)
  exact ⟨by norm_num, by norm_num, by norm_num, ⟨by norm_num, by norm_num⟩,
    h.1 1, h.2.1 (by norm_num) 1 (by norm_num), h.2.2 1500 (by norm_num) (by norm_num)⟩

end Mezashi
